import Mathlib

/-!
Verification of the mnemofy core engines (heuristic meeting-type classifier
and deterministic transcript normalizer) against their natural-language
specification.

The development is a shallow embedding of the Python sources:
  - src/mnemofy/classifier.py  (HeuristicClassifier.detect_meeting_type and
    the MEETING_TYPE_KEYWORDS table)
  - src/mnemofy/transcriber.py (Transcriber.normalize_transcript and its
    helper stages, plus the pure reconciliation part of repair_transcript)

Modelling conventions:
  - Python strings are modelled as List Char; lowercasing is Char.toLower
    (the sources only rely on ASCII behaviour).
  - Python float arithmetic on scores is modelled over the real numbers;
    math.log is Real.log.  Segment timestamps are modelled as rationals,
    which agree with binary floating point on every literal the claims
    exercise (0.5 is exact in both; 0.501 is strictly above 0.5 in both).
  - Python dicts that are only iterated in insertion order are modelled as
    association lists in the same order.
  - Python sorted(..., reverse=True) is a stable descending sort; it is
    modelled by List.mergeSort with the boolean relation
    fun a b => decide (b.2 <= a.2), which is also a stable sort and keeps
    tied elements in their original order.
-/

/-- Convert a string literal to the List Char representation used throughout. -/
def str (s : String) : List Char := s.toList

/-- The apostrophe character (used inside some keyword phrases). -/
def apos : Char := Char.ofNat 39

/-- Python str.lower, restricted to the ASCII behaviour the sources rely on. -/
def lowerL (l : List Char) : List Char := l.map Char.toLower

/-- Auxiliary scanner for Python str.count: counts non-overlapping
occurrences of sub, scanning left to right; the Nat argument is the number
of characters still to skip after a match (so that matched spans are not
re-scanned, exactly as str.count does). -/
def countOccAux (sub : List Char) : List Char → Nat → Nat
  | [], _ => 0
  | c :: rest, k =>
    match k with
    | 0 =>
      if sub ≠ [] ∧ sub.isPrefixOf (c :: rest) then
        1 + countOccAux sub rest (sub.length - 1)
      else
        countOccAux sub rest 0
    | k' + 1 => countOccAux sub rest k'

/-- Python text.count(sub) for a nonempty sub: the number of
non-overlapping occurrences of sub in text, scanning left to right.
(For sub = [] Python returns length+1; the sources never count an empty
string, and this model returns 0 there.) -/
def countOcc (sub text : List Char) : Nat := countOccAux sub text 0

/-- Decimal digits of a Nat (Python str(n) for a nonnegative int). -/
def natChars (n : Nat) : List Char := Nat.toDigits 10 n

/-- MeetingType: closed enumeration of the nine meeting types, in the
declaration order of classifier.py. -/
inductive MeetingType where
  | status | planning | design | demo | talk | incident | discovery | oneonone | brainstorm
deriving DecidableEq, Repr

/-- ClassificationResult from classifier.py.  The timestamp field
(datetime.now) is an external effect and is omitted; engine is kept as a
string.  Scores and confidence are real numbers (Python floats). -/
structure ClassificationResult where
  detected_type : MeetingType
  confidence : ℝ
  evidence : List (List Char)
  secondary_types : List (MeetingType × ℝ)
  engine : List Char

/-- STATUS keywords with weights, in source order. -/
def statusKeywords : List (List Char × ℚ) :=
  [(str "status", 5/2), (str "update", 5/2), (str "progress", 2),
   (str "blockers", 5/2), (str "blocked", 2), (str "impediments", 2),
   (str "stand-up", 3), (str "standup", 3), (str "scrum", 5/2), (str "sprint", 2),
   (str "yesterday", 2), (str "today", 3/2), (str "tomorrow", 3/2),
   (str "this week", 1), (str "last week", 1), (str "next week", 1),
   (str "working on", 3/2), (str "finished", 1), (str "completed", 1),
   (str "in progress", 3/2), (str "waiting for", 3/2)]

/-- PLANNING keywords with weights, in source order. -/
def planningKeywords : List (List Char × ℚ) :=
  [(str "roadmap", 5/2), (str "milestone", 2), (str "sprint planning", 3),
   (str "backlog", 5/2), (str "prioritize", 2), (str "priority", 3/2),
   (str "estimate", 2), (str "timeline", 2), (str "deadline", 3/2),
   (str "dependencies", 3/2), (str "next quarter", 2), (str "next sprint", 2),
   (str "upcoming", 3/2), (str "plan", 3/2), (str "schedule", 3/2),
   (str "allocate", 3/2), (str "resource", 1), (str "story points", 5/2),
   (str "velocity", 2), (str "capacity", 3/2), (str "commitment", 3/2)]

/-- DESIGN keywords with weights, in source order. -/
def designKeywords : List (List Char × ℚ) :=
  [(str "architecture", 5/2), (str "design", 2), (str "technical", 3/2),
   (str "approach", 3/2), (str "pattern", 2), (str "trade-offs", 5/2),
   (str "tradeoffs", 5/2), (str "component", 3/2), (str "module", 3/2),
   (str "interface", 2), (str "API", 2), (str "schema", 2),
   (str "data model", 5/2), (str "diagram", 2), (str "whiteboard", 2),
   (str "mock", 3/2), (str "mockup", 3/2), (str "prototype", 2),
   (str "proposal", 3/2), (str "scalability", 2), (str "performance", 3/2)]

/-- DEMO keywords with weights, in source order. -/
def demoKeywords : List (List Char × ℚ) :=
  [(str "demo", 3), (str "demonstrate", 5/2), (str "show", 3/2),
   (str "presentation", 2), (str "showcase", 5/2), (str "walkthrough", 2),
   (str "let me show", 5/2), (str "you can see", 2), (str "as you can see", 2),
   (str "here" ++ [apos] ++ str "s how", 2), (str "click", 3/2), (str "screen", 3/2),
   (str "feature", 3/2), (str "feedback", 3/2), (str "questions", 1),
   (str "thoughts", 1), (str "works", 1)]

/-- TALK keywords with weights, in source order. -/
def talkKeywords : List (List Char × ℚ) :=
  [(str "presentation", 2), (str "talk", 3/2), (str "lecture", 5/2),
   (str "today I" ++ [apos] ++ str "ll", 2), (str "agenda", 2),
   (str "introducing", 2), (str "overview", 2), (str "thank you for", 3/2),
   (str "questions", 1), (str "slides", 5/2), (str "next slide", 5/2),
   (str "explain", 3/2), (str "learn", 3/2), (str "understand", 1)]

/-- INCIDENT keywords with weights, in source order. -/
def incidentKeywords : List (List Char × ℚ) :=
  [(str "incident", 3), (str "outage", 3), (str "down", 2), (str "critical", 5/2),
   (str "urgent", 2), (str "emergency", 5/2), (str "broken", 2),
   (str "root cause", 5/2), (str "RCA", 5/2), (str "investigate", 2),
   (str "debug", 2), (str "troubleshoot", 2), (str "logs", 3/2),
   (str "error", 3/2), (str "failure", 3/2), (str "mitigate", 2),
   (str "rollback", 2), (str "hotfix", 5/2), (str "restore", 2),
   (str "recovering", 2)]

/-- DISCOVERY keywords with weights, in source order. -/
def discoveryKeywords : List (List Char × ℚ) :=
  [(str "discovery", 5/2), (str "research", 2), (str "explore", 2),
   (str "investigate", 3/2), (str "understand", 3/2), (str "requirements", 2),
   (str "user needs", 5/2), (str "pain points", 5/2), (str "tell me about", 2),
   (str "how do you", 3/2), (str "why do you", 3/2), (str "workflow", 3/2),
   (str "process", 1), (str "challenges", 3/2), (str "insights", 2),
   (str "findings", 2), (str "learned", 3/2)]

/-- ONEONONE keywords with weights, in source order. -/
def oneononeKeywords : List (List Char × ℚ) :=
  [(str "1:1", 3), (str "one-on-one", 3), (str "check-in", 5/2),
   (str "check in", 5/2), (str "how are you", 2),
   (str "how" ++ [apos] ++ str "s it going", 2), (str "career", 5/2),
   (str "growth", 2), (str "feedback", 3/2), (str "performance", 3/2),
   (str "goals", 3/2), (str "development", 3/2), (str "feeling", 3/2),
   (str "comfortable", 1), (str "support", 1), (str "concerns", 3/2)]

/-- BRAINSTORM keywords with weights, in source order. -/
def brainstormKeywords : List (List Char × ℚ) :=
  [(str "brainstorm", 3), (str "ideas", 5/2), (str "creative", 2),
   (str "think", 3/2), (str "what if", 5/2), (str "could we", 2),
   (str "maybe", 3/2), (str "possibilities", 2), (str "options", 3/2),
   (str "alternatives", 3/2), (str "crazy idea", 5/2), (str "wild idea", 5/2),
   (str "no bad ideas", 5/2), (str "throw out", 2), (str "building on", 3/2)]

/-- MEETING_TYPE_KEYWORDS from classifier.py: the static mapping
MeetingType -> (keyword -> weight), in dict insertion order. -/
def MEETING_TYPE_KEYWORDS : List (MeetingType × List (List Char × ℚ)) :=
  [(.status, statusKeywords), (.planning, planningKeywords),
   (.design, designKeywords), (.demo, demoKeywords), (.talk, talkKeywords),
   (.incident, incidentKeywords), (.discovery, discoveryKeywords),
   (.oneonone, oneononeKeywords), (.brainstorm, brainstormKeywords)]

/-- The per-type score loop of detect_meeting_type: for each (keyword,
weight) pair, count occurrences of keyword.lower() in the lowered text and,
when the count is positive, accumulate weight * log(1 + count). -/
noncomputable def typeScore (kws : List (List Char × ℚ)) (textLower : List Char) : ℝ :=
  kws.foldl
    (fun acc p =>
      let c := countOcc (lowerL p.1) textLower
      if 0 < c then acc + (p.2 : ℝ) * Real.log (1 + (c : ℝ)) else acc)
    0

/-- The evidence accumulation of the same loop: the strings
"{keyword} ({count}x)" for each keyword with positive count, in table
order. -/
def typeEvidence (kws : List (List Char × ℚ)) (textLower : List Char) : List (List Char) :=
  kws.foldl
    (fun acc p =>
      let c := countOcc (lowerL p.1) textLower
      if 0 < c then acc ++ [p.1 ++ str " (" ++ natChars c ++ str "x)"] else acc)
    []

/-- Python text_lower.split(".") (always returns at least one piece). -/
def splitOnDot : List Char → List (List Char)
  | [] => [[]]
  | c :: rest =>
    if c = '.' then [] :: splitOnDot rest
    else
      match splitOnDot rest with
      | s :: ss => (c :: s) :: ss
      | [] => [[c]]

/-- Question density of _add_structural_features: fraction of
"." -separated pseudo-sentences that contain a question mark. -/
def questionDensity (textLower : List Char) : ℚ :=
  let sentences := splitOnDot textLower
  let questions := sentences.filter (fun s => '?' ∈ s)
  if sentences ≠ [] then (questions.length : ℚ) / (sentences.length : ℚ) else 0

/-- Timeline-vocabulary count of _add_structural_features. -/
def timelineCount (textLower : List Char) : Nat :=
  ([str "yesterday", str "today", str "tomorrow", str "last week",
    str "next week", str "this week"].map (fun w => countOcc w textLower)).sum

/-- Commitment-marker count of _add_structural_features. -/
def actionCount (textLower : List Char) : Nat :=
  ([str "will", str "should", str "must", str "need to", str "have to"].map
    (fun w => countOcc w textLower)).sum

/-- The flat additive bonus that _add_structural_features adds to the score
of one meeting type. -/
def structuralBonus (textLower : List Char) (ty : MeetingType) : ℚ :=
  (if 3/10 < questionDensity textLower then
     (match ty with
      | .discovery => 2 | .brainstorm => 3/2 | .status => 1 | _ => 0)
   else 0)
  + (if 3 < timelineCount textLower then
       (match ty with | .status => 2 | .planning => 3/2 | _ => 0)
     else 0)
  + (if 5 < actionCount textLower then
       (match ty with | .planning => 3/2 | .incident => 1 | _ => 0)
     else 0)

/-- The segments parameter of detect_meeting_type is only tested for Python
truthiness (None and the empty list both skip structural features), so the
model keeps just that information. -/
def segmentsTruthy {α : Type} : Option (List α) → Bool
  | some (_ :: _) => true
  | _ => false

/-- The scores dict after the keyword loop and (when segments is truthy)
_add_structural_features, as an association list in dict insertion order. -/
noncomputable def finalScores {α : Type} (table : List (MeetingType × List (List Char × ℚ)))
    (text : List Char) (osegs : Option (List α)) : List (MeetingType × ℝ) :=
  let textLower := lowerL text
  let raw := table.map (fun p => (p.1, typeScore p.2 textLower))
  if segmentsTruthy osegs then
    raw.map (fun p => (p.1, p.2 + (structuralBonus textLower p.1 : ℝ)))
  else raw

/-- evidence_by_type lookup for the winning type. -/
def evidenceFor (table : List (MeetingType × List (List Char × ℚ)))
    (textLower : List Char) (ty : MeetingType) : List (List Char) :=
  ((table.find? (fun p => p.1 = ty)).map (fun p => typeEvidence p.2 textLower)).getD []

/-- The boolean comparison underlying sorted(scores.items(),
key=lambda x: x[1], reverse=True): a before b when b.2 <= a.2. -/
noncomputable def scoreLE (a b : MeetingType × ℝ) : Bool := decide (b.2 ≤ a.2)

/-- HeuristicClassifier.detect_meeting_type, shallowly embedded.  The text
is the transcript_text argument; osegs is the optional segments list
(only its truthiness matters, as in the source). -/
noncomputable def detect_meeting_type {α : Type}
    (table : List (MeetingType × List (List Char × ℚ)))
    (text : List Char) (osegs : Option (List α)) : ClassificationResult :=
  let textLower := lowerL text
  let sortedTypes := (finalScores table text osegs).mergeSort scoreLE
  match sortedTypes with
  | [] =>
    { detected_type := .talk, confidence := 0,
      evidence := [str "No strong indicators found"],
      secondary_types := [], engine := str "heuristic" }
  | top :: rest =>
    if top.2 = 0 then
      { detected_type := .talk, confidence := 0,
        evidence := [str "No strong indicators found"],
        secondary_types := ((top :: rest).take 5).map (fun p => (p.1, (0 : ℝ))),
        engine := str "heuristic" }
    else
      let conf : ℝ :=
        match rest with
        | [] => min (top.2 / 20) 1
        | second :: _ =>
          let margin := if 0 < top.2 then (top.2 - second.2) / top.2 else 0
          (min (top.2 / 20) 1) * (1/2 + 1/2 * margin)
      { detected_type := top.1, confidence := conf,
        evidence := (evidenceFor table textLower top.1).take 5,
        secondary_types := (rest.take 5).map (fun p => (p.1, min (p.2 / 20) 1)),
        engine := str "heuristic" }

/-- Word-level timestamp entry of a segment ("words" items). -/
structure TWord where
  start : ℚ
  «end» : ℚ
  word : List Char
deriving DecidableEq, Repr

/-- A transcript segment (the dict shape produced by Transcriber.transcribe).
The words key is optional in _stitch_sentences, hence Option. -/
structure Segment where
  id : Nat
  start : ℚ
  «end» : ℚ
  text : List Char
  words : Option (List TWord)
deriving DecidableEq, Repr

/-- TranscriptChange from transcriber.py. -/
structure TranscriptChange where
  segment_id : Nat
  timestamp : List Char
  before : List Char
  after : List Char
  reason : List Char
  change_type : List Char
deriving DecidableEq, Repr

/-- The transcription dict (text, segments, language). -/
structure Transcription where
  text : List Char
  segments : List Segment
  language : Option (List Char)
deriving DecidableEq, Repr

/-- NormalizationResult from transcriber.py. -/
structure NormalizationResult where
  transcription : Transcription
  changes : List TranscriptChange
deriving DecidableEq, Repr

/-- Python str.strip(): drop leading and trailing whitespace. -/
def stripChars (l : List Char) : List Char :=
  ((l.dropWhile Char.isWhitespace).reverse.dropWhile Char.isWhitespace).reverse

/-- A regex word character (\w); the sources only rely on the ASCII
alphanumerics-and-underscore behaviour. -/
def isWordChar (c : Char) : Bool := c.isAlphanum || c = '_'

/-- Zero-padded two-digit rendering (Python f-string {n:02d} for n >= 0). -/
def pad2 (n : Nat) : List Char :=
  if n < 10 then '0' :: natChars n else natChars n

/-- Transcriber._format_timestamp: "MM:SS-MM:SS" built from the
floor of each boundary (int(s // 60), int(s % 60) for nonnegative s). -/
def formatTimestamp (s e : ℚ) : List Char :=
  let fmt := fun (q : ℚ) =>
    let n := (⌊q⌋).toNat
    pad2 (n / 60) ++ [':'] ++ pad2 (n % 60)
  fmt s ++ ['-'] ++ fmt e

/-- Zero-padded three-digit rendering. -/
def pad3 (n : Nat) : List Char :=
  if n < 10 then '0' :: '0' :: natChars n
  else if n < 100 then '0' :: natChars n
  else natChars n

/-- Python f-string {q:.3f} for the pause duration: round to three decimal
places, half to even (the model works on the exact rational; binary float
representation error is ignored, which agrees on every value the claims
exercise). -/
def formatFixed3 (q : ℚ) : List Char :=
  let fmt := fun (p : ℚ) =>
    let m : ℚ := p * 1000
    let fl : ℤ := ⌊m⌋
    let frac : ℚ := m - (fl : ℚ)
    let r : ℤ :=
      if frac > 1/2 then fl + 1
      else if frac < 1/2 then fl
      else if fl % 2 = 0 then fl else fl + 1
    let n := r.toNat
    natChars (n / 1000) ++ ['.'] ++ pad3 (n % 1000)
  if q < 0 then '-' :: fmt (-q) else fmt q

/-- One maximal-run chunk of a tokenized string: a run of word characters
or a run of non-word characters. -/
inductive Chunk where
  | word (cs : List Char)
  | sep (cs : List Char)
deriving DecidableEq, Repr

/-- One step of the tokenizer: prepend character c to the chunking of the
suffix, extending the first chunk when the character class matches. -/
def tokStep (c : Char) (acc : List Chunk) : List Chunk :=
  match acc with
  | Chunk.word w :: rest =>
    if isWordChar c then Chunk.word (c :: w) :: rest
    else Chunk.sep [c] :: Chunk.word w :: rest
  | Chunk.sep s :: rest =>
    if isWordChar c then Chunk.word [c] :: Chunk.sep s :: rest
    else Chunk.sep (c :: s) :: rest
  | [] => if isWordChar c then [Chunk.word [c]] else [Chunk.sep [c]]

/-- Split a string into maximal runs of word / non-word characters. -/
def tokenize (l : List Char) : List Chunk := l.foldr tokStep []

/-- Concatenate chunks back into a string. -/
def render (cs : List Chunk) : List Char :=
  cs.foldr (fun c acc => (match c with | Chunk.word w => w | Chunk.sep s => s) ++ acc) []

/-- Case-insensitive token equality (the IGNORECASE backreference \1). -/
def lowerEq (a b : List Char) : Bool := lowerL a == lowerL b

/-- The stutter-collapsing loop over chunks, carrying the current word w.
This realizes re.sub(r"\b(\w+)(\s+\1\b)+(?!\w)", group(1), text, IGNORECASE)
on a tokenized string: starting from a word w, any following
(whitespace-separator, case-insensitively equal word) pair is absorbed into
the single occurrence w (the first casing survives); at the first pair that
does not match, w is emitted and scanning restarts at the next word.  On
well-formed (alternating) chunk lists the catch-all branch is only reached
with rest = [] or a single trailing separator. -/
def collapseAux (w : List Char) : List Chunk → List Chunk
  | Chunk.sep s :: Chunk.word w2 :: rest =>
    if s.all Char.isWhitespace && lowerEq w2 w then collapseAux w rest
    else Chunk.word w :: Chunk.sep s :: collapseAux w2 rest
  | rest => Chunk.word w :: rest

/-- Top level of the stutter collapse: leading separator (if any) is
untouched; from the first word chunk onwards collapseAux runs. -/
def collapseChunks : List Chunk → List Chunk
  | [] => []
  | Chunk.word w :: rest => collapseAux w rest
  | Chunk.sep s :: rest => Chunk.sep s :: collapseChunks rest

/-- Transcriber._reduce_stutters: collapse runs of 2+ consecutive identical
word tokens (case-insensitive, word-boundary matched) into the first
occurrence. -/
def reduceStutters (text : List Char) : List Char :=
  render (collapseChunks (tokenize text))

/-- Case-insensitive literal match: if text starts (case-insensitively)
with the pattern, return the matched original slice and the rest. -/
def matchCI : List Char → List Char → Option (List Char × List Char)
  | [], l => some ([], l)
  | _ :: _, [] => none
  | p :: ps, c :: cs =>
    if p.toLower = c.toLower then
      (matchCI ps cs).map (fun r => (c :: r.1, r.2))
    else none

/-- A trailing word-boundary check: the next character (if any) is not a
word character. -/
def noWordAhead : List Char → Bool
  | [] => true
  | c :: _ => !isWordChar c

/-- re.sub scanning loop.  The matcher m is tried at each position that
follows a non-word character (every pattern in the sources opens with \b
followed by a word character); on success it yields the replacement and the
length of the matched span, which is skipped (matches are non-overlapping,
left to right, as in re.sub).  The Nat argument is the remaining skip, the
Bool whether the previous character was a word character. -/
def subScan (m : List Char → Option (List Char × Nat)) :
    List Char → Nat → Bool → List Char
  | [], _, _ => []
  | c :: rest, k + 1, _ => subScan m rest k (isWordChar c)
  | c :: rest, 0, prevW =>
    if prevW then c :: subScan m rest 0 (isWordChar c)
    else
      match m (c :: rest) with
      | some (repl, L) => repl ++ subScan m rest (L - 1) (isWordChar c)
      | none => c :: subScan m rest 0 (isWordChar c)

/-- Run one re.sub pass over a whole string. -/
def reSub (m : List Char → Option (List Char × Nat)) (text : List Char) : List Char :=
  subScan m text 0 false

/-- Matcher for the filler patterns of the shape \bpre repc+\b (um+, uh+,
hmm+), deleting the match. -/
def tokenPlusMatcher (pre : List Char) (repc : Char) (l : List Char) :
    Option (List Char × Nat) :=
  match matchCI pre l with
  | none => none
  | some (_, r1) =>
    let run := r1.takeWhile (fun c => c.toLower = repc)
    if 0 < run.length ∧ noWordAhead (r1.drop run.length) then
      some ([], pre.length + run.length)
    else none

/-- Matcher deleting the first of a list of literal phrases that matches at
this position with a trailing word boundary (regex alternation order). -/
def litAltDeleteMatcher (lits : List (List Char)) (l : List Char) :
    Option (List Char × Nat) :=
  match lits with
  | [] => none
  | lit :: more =>
    match matchCI lit l with
    | some (_, rest) =>
      if noWordAhead rest then some ([], lit.length)
      else litAltDeleteMatcher more l
    | none => litAltDeleteMatcher more l

/-- Collapse every maximal whitespace run to a single space
(re.sub(r"\s+", " ", ...)); the Bool records whether we are inside a run. -/
def cwAux : List Char → Bool → List Char
  | [], _ => []
  | c :: rest, inRun =>
    if c.isWhitespace then
      if inRun then cwAux rest true else ' ' :: cwAux rest true
    else c :: cwAux rest false

/-- Transcriber._filter_fillers: six conservative deletion passes followed
by whitespace cleanup and strip. -/
def filterFillers (text : List Char) : List Char :=
  let p1 := reSub (tokenPlusMatcher (str "u") 'm') text
  let p2 := reSub (tokenPlusMatcher (str "u") 'h') p1
  let p3 := reSub (tokenPlusMatcher (str "hm") 'm') p2
  let p4 := reSub (litAltDeleteMatcher [str "you know", str "I mean"]) p3
  let p5 := reSub (litAltDeleteMatcher [str "so like"]) p4
  let p6 := reSub (litAltDeleteMatcher [str "kind of like"]) p5
  stripChars (cwAux p6 false)

/-- The months dict of _normalize_numbers_dates (lowercase -> titlecase),
in insertion order. -/
def monthPairs : List (List Char × List Char) :=
  [(str "january", str "January"), (str "february", str "February"),
   (str "march", str "March"), (str "april", str "April"),
   (str "may", str "May"), (str "june", str "June"),
   (str "july", str "July"), (str "august", str "August"),
   (str "september", str "September"), (str "october", str "October"),
   (str "november", str "November"), (str "december", str "December")]

/-- The number_words dict of _normalize_numbers_dates, in insertion order. -/
def numberWordPairs : List (List Char × List Char) :=
  [(str "zero", str "0"), (str "one", str "1"), (str "two", str "2"),
   (str "three", str "3"), (str "four", str "4"), (str "five", str "5"),
   (str "six", str "6"), (str "seven", str "7"), (str "eight", str "8"),
   (str "nine", str "9"), (str "ten", str "10"), (str "eleven", str "11"),
   (str "twelve", str "12"), (str "thirteen", str "13"),
   (str "fourteen", str "14"), (str "fifteen", str "15"),
   (str "sixteen", str "16"), (str "seventeen", str "17"),
   (str "eighteen", str "18"), (str "nineteen", str "19"),
   (str "twenty", str "20"), (str "thirty", str "30"),
   (str "forty", str "40"), (str "fifty", str "50"),
   (str "sixty", str "60"), (str "seventy", str "70"),
   (str "eighty", str "80"), (str "ninety", str "90")]

/-- The unit alternation of the second substitution, in regex order. -/
def unitWords : List (List Char) :=
  [str "am", str "pm", str "o" ++ [apos] ++ str "clock", str "dollars", str "percent"]

/-- Matcher for \b w1 \s+ w2 \b replaced by the fixed string repl
(the month-name + number-word substitution). -/
def pairMatcher (w1 w2 repl : List Char) (l : List Char) :
    Option (List Char × Nat) :=
  match matchCI w1 l with
  | none => none
  | some (_, r1) =>
    let ws := r1.takeWhile Char.isWhitespace
    if 0 < ws.length then
      match matchCI w2 (r1.drop ws.length) with
      | some (_, r3) =>
        if noWordAhead r3 then
          some (repl, w1.length + ws.length + w2.length)
        else none
      | none => none
    else none

/-- Matcher for \b numWord \s+ (am|pm|o-clock|dollars|percent)\b replaced
by "digit \1" (the captured unit keeps its original casing, as the \1
backreference does). -/
def unitMatcher (numWord digit : List Char) (l : List Char) :
    Option (List Char × Nat) :=
  match matchCI numWord l with
  | none => none
  | some (_, r1) =>
    let ws := r1.takeWhile Char.isWhitespace
    if 0 < ws.length then
      let r2 := r1.drop ws.length
      let rec tryUnits : List (List Char) → Option (List Char × Nat)
        | [] => none
        | u :: more =>
          match matchCI u r2 with
          | some (matched, r3) =>
            if noWordAhead r3 then
              some (digit ++ [' '] ++ matched, numWord.length + ws.length + u.length)
            else tryUnits more
          | none => tryUnits more
      tryUnits unitWords
    else none

/-- Transcriber._normalize_numbers_dates: the 12 x 28 sequential month+day
substitution passes followed by the 28 number+unit passes, in source loop
order. -/
def normalizeNumbersDates (text : List Char) : List Char :=
  let afterMonths := monthPairs.foldl
    (fun acc mp => numberWordPairs.foldl
      (fun acc2 np => reSub (pairMatcher mp.1 np.1 (mp.2 ++ [' '] ++ np.2)) acc2)
      acc)
    text
  numberWordPairs.foldl
    (fun acc np => reSub (unitMatcher np.1 np.2) acc)
    afterMonths

/-- The loop body of _stitch_sentences: current accumulates the open
segment, prev is the previous original segment (whose end time the source
uses for the pause; it always coincides with current.end). -/
def stitchGo (current prev : Segment) : List Segment → List Segment × List TranscriptChange
  | [] => ([current], [])
  | curr :: rest =>
    let pause := curr.start - prev.«end»
    if pause ≤ 1/2 then
      let merged : Segment :=
        { current with
          text := stripChars current.text ++ [' '] ++ stripChars curr.text,
          «end» := curr.«end»,
          words := match current.words, curr.words with
                   | some a, some b => some (a ++ b)
                   | _, _ => current.words }
      let change : TranscriptChange :=
        { segment_id := merged.id,
          timestamp := formatTimestamp merged.start merged.«end»,
          before := str "[Segment " ++ natChars prev.id ++ str "] + [Segment "
            ++ natChars curr.id ++ str "]",
          after := str "[Stitched segment " ++ natChars merged.id ++ str "]",
          reason := str "Stitched across " ++ formatFixed3 pause ++ str "s pause",
          change_type := str "normalization" }
      let next := stitchGo merged curr rest
      (next.1, change :: next.2)
    else
      let next := stitchGo curr curr rest
      (current :: next.1, next.2)

/-- Transcriber._stitch_sentences: join segments across pauses <= 0.5 s. -/
def stitchSentences : List Segment → List Segment × List TranscriptChange
  | [] => ([], [])
  | s :: rest => stitchGo s s rest

/-- One per-segment text pass of normalize_transcript (stages 1, 2 and 4
share this shape): apply f to each segment text and log a change, in
segment order, for each segment whose text changed. -/
def textPass (f : List Char → List Char) (reason : List Char) :
    List Segment → List Segment × List TranscriptChange
  | [] => ([], [])
  | s :: rest =>
    let nt := f s.text
    let tail := textPass f reason rest
    if nt ≠ s.text then
      ({ s with text := nt } :: tail.1,
       { segment_id := s.id, timestamp := formatTimestamp s.start s.«end»,
         before := s.text, after := nt, reason := reason,
         change_type := str "normalization" } :: tail.2)
    else (s :: tail.1, tail.2)

/-- Transcriber.normalize_transcript: four stages in fixed order on a copy
of the transcription, returning the new transcription (text rebuilt as the
space-join of the final segment texts) and the accumulated change list in
stage order. -/
def normalize_transcript (t : Transcription)
    (remove_fillers normalize_numbers : Bool) : NormalizationResult :=
  let p1 := textPass reduceStutters (str "Stutter reduction") t.segments
  let p2 := if remove_fillers
    then textPass filterFillers (str "Filler word removal") p1.1
    else (p1.1, [])
  let p3 := stitchSentences p2.1
  let p4 := if normalize_numbers
    then textPass normalizeNumbersDates (str "Number/date normalization") p3.1
    else (p3.1, [])
  { transcription :=
      { t with segments := p4.1,
               text := List.intercalate (str " ") (p4.1.map Segment.text) },
    changes := p1.2 ++ p2.2 ++ p3.2 ++ p4.2 }

/-- A structured change entry supplied by the external repair collaborator
(the model assumes all keys present; the claims do not exercise the
.get defaults of the source). -/
structure RepairChangeInfo where
  segment_id : Nat
  timestamp : List Char
  before : List Char
  after : List Char
  reason : List Char
deriving DecidableEq, Repr

/-- Python str.split() with no separator: maximal non-whitespace runs. -/
def splitWs (l : List Char) : List (List Char) :=
  let p := l.foldr
    (fun c acc =>
      if c.isWhitespace then ([], if acc.1 = [] then acc.2 else acc.1 :: acc.2)
      else (c :: acc.1, acc.2))
    (([], []) : List Char × List (List Char))
  if p.1 = [] then p.2 else p.1 :: p.2

/-- The word-redistribution walk of repair_transcript: every segment except
the last takes max(1, number of original words) words from the head of the
remaining repaired-word sequence; the last segment absorbs the rest.  A
repair change is logged for each segment whose reconstructed text differs
from the original. -/
def distributeWords (ws : List (List Char)) :
    List Segment → List Segment × List TranscriptChange
  | [] => ([], [])
  | [last] =>
    let newText := List.intercalate (str " ") ws
    if newText ≠ last.text then
      ([{ last with text := newText }],
       [{ segment_id := last.id, timestamp := formatTimestamp last.start last.«end»,
          before := last.text, after := newText,
          reason := str "LLM-based ASR error correction",
          change_type := str "repair" }])
    else ([last], [])
  | seg :: rest =>
    let k := max 1 (splitWs seg.text).length
    let newText := List.intercalate (str " ") (ws.take k)
    let tail := distributeWords (ws.drop k) rest
    if newText ≠ seg.text then
      ({ seg with text := newText } :: tail.1,
       { segment_id := seg.id, timestamp := formatTimestamp seg.start seg.«end»,
         before := seg.text, after := newText,
         reason := str "LLM-based ASR error correction",
         change_type := str "repair" } :: tail.2)
    else (seg :: tail.1, tail.2)

/-- The deterministic reconciliation part of Transcriber.repair_transcript,
given the already-parsed collaborator response (repaired text plus optional
structured change list).  Mirrors the body after the LLM call: nothing
happens unless the repaired text is truthy and differs from the original
full text; redistribution additionally requires at least one repaired word;
structured entries are appended after filtering out no-ops. -/
def repairReconcile (t : Transcription) (repairedText : List Char)
    (repairChanges : List RepairChangeInfo) : NormalizationResult :=
  let full_text := List.intercalate (str " ") (t.segments.map Segment.text)
  if repairedText ≠ [] ∧ repairedText ≠ full_text then
    let repairedWords := splitWs repairedText
    let distributed :=
      if 0 < repairedWords.length then distributeWords repairedWords t.segments
      else (t.segments, [])
    let structured : List TranscriptChange :=
      (repairChanges.filter (fun c => c.before ≠ c.after)).map
        (fun c =>
          { segment_id := c.segment_id, timestamp := c.timestamp,
            before := c.before, after := c.after, reason := c.reason,
            change_type := str "repair" })
    { transcription := { t with text := repairedText, segments := distributed.1 },
      changes := distributed.2 ++ structured }
  else
    { transcription := t, changes := [] }

/-! ### Support lemmas for the classifier -/

/-- The contribution of one (keyword, weight) pair to a type score. -/
noncomputable def kwContribution (textLower : List Char) (p : List Char × ℚ) : ℝ :=
  if 0 < countOcc (lowerL p.1) textLower then
    (p.2 : ℝ) * Real.log (1 + (countOcc (lowerL p.1) textLower : ℝ))
  else 0

theorem foldl_add_eq {α : Type} (g : α → ℝ) :
    ∀ (l : List α) (a : ℝ), l.foldl (fun acc p => acc + g p) a = a + (l.map g).sum := by
  intro l
  induction l with
  | nil => intro a; simp
  | cons x xs ih => intro a; simp [ih]; ring

theorem typeScore_eq_sum (kws : List (List Char × ℚ)) (tl : List Char) :
    typeScore kws tl = (kws.map (kwContribution tl)).sum := by
  have hstep :
      (fun (acc : ℝ) (p : List Char × ℚ) =>
        let c := countOcc (lowerL p.1) tl
        if 0 < c then acc + (p.2 : ℝ) * Real.log (1 + (c : ℝ)) else acc)
      = fun acc p => acc + kwContribution tl p := by
    funext acc p
    simp only [kwContribution]
    split <;> simp
  rw [typeScore, hstep, foldl_add_eq, zero_add]

theorem kwContribution_nonneg (tl : List Char) (p : List Char × ℚ) (hw : 0 ≤ p.2) :
    0 ≤ kwContribution tl p := by
  unfold kwContribution
  split
  · apply mul_nonneg (by exact_mod_cast hw)
    apply Real.log_nonneg
    have : (0 : ℝ) ≤ (countOcc (lowerL p.1) tl : ℝ) := by positivity
    linarith
  · exact le_refl 0

theorem typeScore_nonneg (kws : List (List Char × ℚ)) (tl : List Char)
    (hw : ∀ p ∈ kws, 0 ≤ p.2) : 0 ≤ typeScore kws tl := by
  rw [typeScore_eq_sum]
  apply List.sum_nonneg
  intro x hx
  obtain ⟨p, hp, rfl⟩ := List.mem_map.mp hx
  exact kwContribution_nonneg tl p (hw p hp)

theorem table_weights_nonneg : ∀ e ∈ MEETING_TYPE_KEYWORDS, ∀ p ∈ e.2, 0 ≤ p.2 := by
  with_unfolding_all decide

theorem structuralBonus_nonneg (tl : List Char) (ty : MeetingType) :
    0 ≤ structuralBonus tl ty := by
  unfold structuralBonus
  apply add_nonneg
  apply add_nonneg
  all_goals
    split
    · cases ty <;> norm_num
    · exact le_refl 0

theorem finalScores_nonneg {α : Type} (text : List Char) (osegs : Option (List α)) :
    ∀ p ∈ finalScores MEETING_TYPE_KEYWORDS text osegs, 0 ≤ p.2 := by
  intro p hp
  unfold finalScores at hp
  by_cases ht : segmentsTruthy osegs
  · simp only [ht, if_true] at hp
    obtain ⟨q, hq, rfl⟩ := List.mem_map.mp hp
    obtain ⟨e, he, rfl⟩ := List.mem_map.mp hq
    have h1 := typeScore_nonneg e.2 (lowerL text) (table_weights_nonneg e he)
    have h2 := structuralBonus_nonneg (lowerL text) e.1
    have h2' : (0:ℝ) ≤ (structuralBonus (lowerL text) e.1 : ℝ) := by exact_mod_cast h2
    simpa using add_nonneg h1 h2'
  · simp only [ht, if_false] at hp
    obtain ⟨e, he, rfl⟩ := List.mem_map.mp hp
    exact typeScore_nonneg e.2 (lowerL text) (table_weights_nonneg e he)

theorem finalScores_map_fst {α : Type} (text : List Char) (osegs : Option (List α)) :
    (finalScores MEETING_TYPE_KEYWORDS text osegs).map Prod.fst
      = MEETING_TYPE_KEYWORDS.map Prod.fst := by
  unfold finalScores
  by_cases ht : segmentsTruthy osegs <;>
    simp [ht, List.map_map, Function.comp]

theorem finalScores_length {α : Type} (text : List Char) (osegs : Option (List α)) :
    (finalScores MEETING_TYPE_KEYWORDS text osegs).length = 9 := by
  have h := congrArg List.length (finalScores_map_fst (α := α) text osegs)
  simpa using h

theorem scoreLE_trans : ∀ a b c : MeetingType × ℝ,
    scoreLE a b → scoreLE b c → scoreLE a c := by
  intro a b c hab hbc
  simp only [scoreLE, decide_eq_true_eq] at *
  exact le_trans hbc hab

theorem scoreLE_total : ∀ a b : MeetingType × ℝ, scoreLE a b || scoreLE b a := by
  intro a b
  simp only [scoreLE]
  rcases le_total a.2 b.2 with h | h <;> simp [h]

theorem sortedScores_pairwise (l : List (MeetingType × ℝ)) :
    (l.mergeSort scoreLE).Pairwise (fun a b => scoreLE a b) :=
  List.sorted_mergeSort scoreLE_trans scoreLE_total l

theorem sorted_head_max {l : List (MeetingType × ℝ)} {top : MeetingType × ℝ}
    {rest : List (MeetingType × ℝ)} (hs : l.mergeSort scoreLE = top :: rest)
    {x : MeetingType × ℝ} (hx : x ∈ l) : x.2 ≤ top.2 := by
  have hmem : x ∈ l.mergeSort scoreLE := List.mem_mergeSort.mpr hx
  rw [hs] at hmem
  rcases List.mem_cons.mp hmem with rfl | hmem'
  · exact le_refl _
  · have hp := sortedScores_pairwise l
    rw [hs] at hp
    have := (List.pairwise_cons.mp hp).1 x hmem'
    simpa [scoreLE, decide_eq_true_eq] using this

theorem typeScore_of_zero_counts (kws : List (List Char × ℚ)) (tl : List Char)
    (h : ∀ p ∈ kws, countOcc (lowerL p.1) tl = 0) : typeScore kws tl = 0 := by
  rw [typeScore_eq_sum]
  apply List.sum_eq_zero
  intro x hx
  obtain ⟨p, hp, rfl⟩ := List.mem_map.mp hx
  unfold kwContribution
  rw [h p hp]
  simp

/-- C2: detect_meeting_type with the default table never raises (it is a
total function of its inputs by construction) and returns the fallback
result (talk, confidence 0, evidence "No strong indicators found") exactly
when every meeting type final score is 0; in particular the empty string
falls back. -/
theorem detect_fallback_iff_all_scores_zero :
    (∀ (text : List Char) (osegs : Option (List Segment)),
      (((detect_meeting_type MEETING_TYPE_KEYWORDS text osegs).detected_type = MeetingType.talk
        ∧ (detect_meeting_type MEETING_TYPE_KEYWORDS text osegs).confidence = 0
        ∧ (detect_meeting_type MEETING_TYPE_KEYWORDS text osegs).evidence
            = [str "No strong indicators found"])
        ↔ ∀ p ∈ finalScores MEETING_TYPE_KEYWORDS text osegs, p.2 = 0))
    ∧ ((detect_meeting_type MEETING_TYPE_KEYWORDS (str "")
          (none : Option (List Segment))).detected_type = MeetingType.talk
       ∧ (detect_meeting_type MEETING_TYPE_KEYWORDS (str "")
            (none : Option (List Segment))).confidence = 0
       ∧ (detect_meeting_type MEETING_TYPE_KEYWORDS (str "")
            (none : Option (List Segment))).evidence
           = [str "No strong indicators found"]) := by
  have main : ∀ (text : List Char) (osegs : Option (List Segment)),
      (((detect_meeting_type MEETING_TYPE_KEYWORDS text osegs).detected_type = MeetingType.talk
        ∧ (detect_meeting_type MEETING_TYPE_KEYWORDS text osegs).confidence = 0
        ∧ (detect_meeting_type MEETING_TYPE_KEYWORDS text osegs).evidence
            = [str "No strong indicators found"])
        ↔ ∀ p ∈ finalScores MEETING_TYPE_KEYWORDS text osegs, p.2 = 0) := by
    intro text osegs
    have hne : (finalScores MEETING_TYPE_KEYWORDS text osegs).mergeSort scoreLE ≠ [] := by
      intro h
      have := congrArg List.length h
      simp [finalScores_length] at this
    cases hs : (finalScores MEETING_TYPE_KEYWORDS text osegs).mergeSort scoreLE with
    | nil => exact absurd hs hne
    | cons top rest =>
      have htopmem : top ∈ finalScores MEETING_TYPE_KEYWORDS text osegs := by
        have : top ∈ (finalScores MEETING_TYPE_KEYWORDS text osegs).mergeSort scoreLE := by
          rw [hs]; exact List.mem_cons_self _ _
        exact List.mem_mergeSort.mp this
      constructor
      · -- fallback shape implies all scores zero
        intro ⟨_, hconf, _⟩ p hp
        by_contra hne0
        have hpos : 0 < p.2 :=
          lt_of_le_of_ne (finalScores_nonneg text osegs p hp) (Ne.symm hne0)
        have htop : 0 < top.2 := lt_of_lt_of_le hpos (sorted_head_max hs hp)
        have htopne : ¬ top.2 = 0 := ne_of_gt htop
        -- detect takes the non-fallback branch, whose confidence is positive
        have hconf' : 0 < (detect_meeting_type MEETING_TYPE_KEYWORDS text osegs).confidence := by
          unfold detect_meeting_type
          rw [hs]
          simp only [htopne, if_false]
          cases rest with
          | nil =>
            simp only []
            exact lt_min (by positivity) one_pos
          | cons second rest2 =>
            simp only []
            have hsle : second.2 ≤ top.2 := by
              have hp := sortedScores_pairwise (finalScores MEETING_TYPE_KEYWORDS text osegs)
              rw [hs] at hp
              have := (List.pairwise_cons.mp hp).1 second (List.mem_cons_self _ _)
              simpa [scoreLE, decide_eq_true_eq] using this
            have hmargin : 0 ≤ (top.2 - second.2) / top.2 :=
              div_nonneg (by linarith) (le_of_lt htop)
            rw [if_pos htop]
            apply mul_pos (lt_min (by positivity) one_pos)
            linarith
        rw [hconf] at hconf'
        exact lt_irrefl 0 hconf'
      · -- all scores zero implies the fallback shape
        intro hall
        have htop0 : top.2 = 0 := hall top htopmem
        unfold detect_meeting_type
        rw [hs]
        simp [htop0]
  refine ⟨main, ?_⟩
  have hzero : ∀ p ∈ finalScores MEETING_TYPE_KEYWORDS (str "")
      (none : Option (List Segment)), p.2 = 0 := by
    intro p hp
    unfold finalScores segmentsTruthy at hp
    simp only [if_false] at hp
    obtain ⟨e, he, rfl⟩ := List.mem_map.mp hp
    exact typeScore_of_zero_counts e.2 (lowerL (str "")) (fun p _ => rfl)
  exact (main (str "") none).mpr hzero

/-- C3: for every input to detect_meeting_type with the default keyword
table, the returned confidence lies in the closed interval [0, 1]. -/
theorem detect_confidence_in_unit_interval :
    ∀ (text : List Char) (osegs : Option (List Segment)),
      0 ≤ (detect_meeting_type MEETING_TYPE_KEYWORDS text osegs).confidence
      ∧ (detect_meeting_type MEETING_TYPE_KEYWORDS text osegs).confidence ≤ 1 := by
  intro text osegs
  have hne : (finalScores MEETING_TYPE_KEYWORDS text osegs).mergeSort scoreLE ≠ [] := by
    intro h
    have := congrArg List.length h
    simp [finalScores_length] at this
  cases hs : (finalScores MEETING_TYPE_KEYWORDS text osegs).mergeSort scoreLE with
  | nil => exact absurd hs hne
  | cons top rest =>
    have htopmem : top ∈ finalScores MEETING_TYPE_KEYWORDS text osegs := by
      have : top ∈ (finalScores MEETING_TYPE_KEYWORDS text osegs).mergeSort scoreLE := by
        rw [hs]; exact List.mem_cons_self _ _
      exact List.mem_mergeSort.mp this
    by_cases htop0 : top.2 = 0
    · unfold detect_meeting_type
      rw [hs]
      simp [htop0]
    · have htop : 0 < top.2 :=
        lt_of_le_of_ne (finalScores_nonneg text osegs top htopmem) (Ne.symm htop0)
      unfold detect_meeting_type
      rw [hs]
      simp only [htop0, if_false]
      cases rest with
      | nil =>
        constructor
        · exact le_min (by positivity) (by norm_num)
        · exact min_le_right _ _
      | cons second rest2 =>
        have hsle : second.2 ≤ top.2 := by
          have hp := sortedScores_pairwise (finalScores MEETING_TYPE_KEYWORDS text osegs)
          rw [hs] at hp
          have := (List.pairwise_cons.mp hp).1 second (List.mem_cons_self _ _)
          simpa [scoreLE, decide_eq_true_eq] using this
        have hsecmem : second ∈ finalScores MEETING_TYPE_KEYWORDS text osegs := by
          have : second ∈ (finalScores MEETING_TYPE_KEYWORDS text osegs).mergeSort scoreLE := by
            rw [hs]; exact List.mem_cons_of_mem _ (List.mem_cons_self _ _)
          exact List.mem_mergeSort.mp this
        have hsec0 : 0 ≤ second.2 := finalScores_nonneg text osegs second hsecmem
        have hm0 : 0 ≤ (top.2 - second.2) / top.2 := div_nonneg (by linarith) (le_of_lt htop)
        have hm1 : (top.2 - second.2) / top.2 ≤ 1 := by
          rw [div_le_one htop]; linarith
        simp only [if_pos htop]
        constructor
        · apply mul_nonneg (le_min (by positivity) (by norm_num))
          linarith
        · apply mul_le_one₀ (min_le_right _ _)
          · linarith
          · linarith

theorem pairwise_of_total {α : Type} {R : α → α → Prop} (h : ∀ a b, R a b) :
    ∀ l : List α, l.Pairwise R
  | [] => .nil
  | x :: xs => .cons (fun y _ => h x y) (pairwise_of_total h xs)

/-- C4 (amended): secondary_types is always sorted descending by its
normalized scores, and for every non-fallback result (some final score is
nonzero) it does not contain detected_type.  (The zero-score fallback
result does list the first five table types with score 0.0, which includes
talk = detected_type; see the counterexample.) -/
theorem detect_secondary_sorted_and_excludes_detected :
    ∀ (text : List Char) (osegs : Option (List Segment)),
      ((detect_meeting_type MEETING_TYPE_KEYWORDS text osegs).secondary_types.Pairwise
        (fun a b => b.2 ≤ a.2))
      ∧ ((∃ p ∈ finalScores MEETING_TYPE_KEYWORDS text osegs, p.2 ≠ 0) →
          (detect_meeting_type MEETING_TYPE_KEYWORDS text osegs).detected_type ∉
            ((detect_meeting_type MEETING_TYPE_KEYWORDS text osegs).secondary_types.map
              Prod.fst)) := by
  intro text osegs
  have hne : (finalScores MEETING_TYPE_KEYWORDS text osegs).mergeSort scoreLE ≠ [] := by
    intro h
    have := congrArg List.length h
    simp [finalScores_length] at this
  cases hs : (finalScores MEETING_TYPE_KEYWORDS text osegs).mergeSort scoreLE with
  | nil => exact absurd hs hne
  | cons top rest =>
    have hpw := sortedScores_pairwise (finalScores MEETING_TYPE_KEYWORDS text osegs)
    rw [hs] at hpw
    have hrestpw : rest.Pairwise (fun a b => scoreLE a b) := (List.pairwise_cons.mp hpw).2
    by_cases htop0 : top.2 = 0
    · -- fallback branch
      constructor
      · unfold detect_meeting_type
        rw [hs]
        simp only [htop0, if_pos]
        rw [List.pairwise_map]
        exact pairwise_of_total (fun a b => le_refl (0:ℝ)) _
      · intro hex
        obtain ⟨p, hp, hpne⟩ := hex
        have hpos : 0 < p.2 :=
          lt_of_le_of_ne (finalScores_nonneg text osegs p hp) (Ne.symm hpne)
        have : 0 < top.2 := lt_of_lt_of_le hpos (sorted_head_max hs hp)
        exact absurd htop0 (ne_of_gt this)
    · constructor
      · unfold detect_meeting_type
        rw [hs]
        simp only [htop0, if_false]
        rw [List.pairwise_map]
        have htake : (rest.take 5).Pairwise (fun a b => scoreLE a b) :=
          hrestpw.sublist (List.take_sublist 5 rest)
        refine htake.imp ?_
        intro a b hab
        simp only [scoreLE, decide_eq_true_eq] at hab
        have : b.2 / 20 ≤ a.2 / 20 := by linarith
        exact min_le_min this (le_refl 1)
      · intro _
        have hperm := List.mergeSort_perm (finalScores MEETING_TYPE_KEYWORDS text osegs) scoreLE
        rw [hs] at hperm
        have hnodup : ((top :: rest).map Prod.fst).Nodup := by
          have h1 : ((finalScores MEETING_TYPE_KEYWORDS text osegs).map Prod.fst).Nodup := by
            rw [finalScores_map_fst]
            decide
          exact ((hperm.map Prod.fst).nodup_iff).mpr h1
        have hnotin : top.1 ∉ rest.map Prod.fst := (List.nodup_cons.mp hnodup).1
        unfold detect_meeting_type
        rw [hs]
        simp only [htop0, if_false]
        intro hmem
        apply hnotin
        simp only [List.map_map] at hmem
        have : ((rest.take 5).map (Prod.fst ∘ fun p => (p.1, min (p.2 / 20) 1)))
            = (rest.take 5).map Prod.fst := by
          apply List.map_congr_left
          intro a _
          rfl
        rw [this] at hmem
        exact List.map_subset _ (List.take_subset 5 rest) hmem

theorem pairwise_scoreLE_of_zeros :
    ∀ (l : List (MeetingType × ℝ)), (∀ b ∈ l, b.2 = 0) →
      l.Pairwise (fun x y => scoreLE x y = true)
  | [], _ => .nil
  | x :: xs, h =>
    .cons
      (fun y hy => by
        simp [scoreLE, decide_eq_true_eq, h y (List.mem_cons_of_mem _ hy),
              h x (List.mem_cons_self _ _)])
      (pairwise_scoreLE_of_zeros xs (fun b hb => h b (List.mem_cons_of_mem _ hb)))

theorem pairwise_scoreLE_head_zeros (a : MeetingType × ℝ) (l : List (MeetingType × ℝ))
    (haS : 0 ≤ a.2) (hl : ∀ b ∈ l, b.2 = 0) :
    (a :: l).Pairwise (fun x y => scoreLE x y = true) :=
  .cons (fun y hy => by simp [scoreLE, decide_eq_true_eq, hl y hy, haS])
    (pairwise_scoreLE_of_zeros l hl)

theorem typeScore_status_scenarioA :
    typeScore statusKeywords (lowerL (str "status update blockers sprint"))
      = (19/2) * Real.log 2 := by
  have h1 : countOcc (lowerL (str "status")) (lowerL (str "status update blockers sprint")) = 1 := by decide
  have h2 : countOcc (lowerL (str "update")) (lowerL (str "status update blockers sprint")) = 1 := by decide
  have h3 : countOcc (lowerL (str "blockers")) (lowerL (str "status update blockers sprint")) = 1 := by decide
  have h4 : countOcc (lowerL (str "sprint")) (lowerL (str "status update blockers sprint")) = 1 := by decide
  simp +decide only [typeScore, statusKeywords, List.foldl_cons, List.foldl_nil, h1, h2, h3, h4]
  push_cast
  ring_nf

theorem finalScores_scenarioA :
    finalScores MEETING_TYPE_KEYWORDS (str "status update blockers sprint")
      (none : Option (List Segment))
    = [(MeetingType.status, (19/2) * Real.log 2), (MeetingType.planning, 0),
       (MeetingType.design, 0), (MeetingType.demo, 0), (MeetingType.talk, 0),
       (MeetingType.incident, 0), (MeetingType.discovery, 0),
       (MeetingType.oneonone, 0), (MeetingType.brainstorm, 0)] := by
  have hz2 : typeScore planningKeywords (lowerL (str "status update blockers sprint")) = 0 := by
    apply typeScore_of_zero_counts; with_unfolding_all decide
  have hz3 : typeScore designKeywords (lowerL (str "status update blockers sprint")) = 0 := by
    apply typeScore_of_zero_counts; with_unfolding_all decide
  have hz4 : typeScore demoKeywords (lowerL (str "status update blockers sprint")) = 0 := by
    apply typeScore_of_zero_counts; with_unfolding_all decide
  have hz5 : typeScore talkKeywords (lowerL (str "status update blockers sprint")) = 0 := by
    apply typeScore_of_zero_counts; with_unfolding_all decide
  have hz6 : typeScore incidentKeywords (lowerL (str "status update blockers sprint")) = 0 := by
    apply typeScore_of_zero_counts; with_unfolding_all decide
  have hz7 : typeScore discoveryKeywords (lowerL (str "status update blockers sprint")) = 0 := by
    apply typeScore_of_zero_counts; with_unfolding_all decide
  have hz8 : typeScore oneononeKeywords (lowerL (str "status update blockers sprint")) = 0 := by
    apply typeScore_of_zero_counts; with_unfolding_all decide
  have hz9 : typeScore brainstormKeywords (lowerL (str "status update blockers sprint")) = 0 := by
    apply typeScore_of_zero_counts; with_unfolding_all decide
  unfold finalScores
  simp [segmentsTruthy, MEETING_TYPE_KEYWORDS, typeScore_status_scenarioA,
        hz2, hz3, hz4, hz5, hz6, hz7, hz8, hz9]

theorem sortedScores_scenarioA :
    (finalScores MEETING_TYPE_KEYWORDS (str "status update blockers sprint")
      (none : Option (List Segment))).mergeSort scoreLE
    = [(MeetingType.status, (19/2) * Real.log 2), (MeetingType.planning, 0),
       (MeetingType.design, 0), (MeetingType.demo, 0), (MeetingType.talk, 0),
       (MeetingType.incident, 0), (MeetingType.discovery, 0),
       (MeetingType.oneonone, 0), (MeetingType.brainstorm, 0)] := by
  rw [finalScores_scenarioA]
  apply List.mergeSort_of_sorted
  apply pairwise_scoreLE_head_zeros
  · have hlog : (0:ℝ) < Real.log 2 := Real.log_pos (by norm_num)
    positivity
  · intro b hb
    simp only [List.mem_cons, List.not_mem_nil, or_false] at hb
    rcases hb with rfl|rfl|rfl|rfl|rfl|rfl|rfl|rfl <;> rfl

/-- C1 (behaviour at the spec scenario-A input): for the text
"status update blockers sprint" with no segments, detect_meeting_type does
return detected_type = status, but its confidence is exactly
(19/2) * ln 2 / 20 = 0.329..., which is below the 0.5 the spec (and the
source docstring, which even asserts it exceeds 0.6) requires. -/
theorem detect_scenarioA_status_confidence_below_half :
    (detect_meeting_type MEETING_TYPE_KEYWORDS (str "status update blockers sprint")
        (none : Option (List Segment))).detected_type = MeetingType.status
    ∧ (detect_meeting_type MEETING_TYPE_KEYWORDS (str "status update blockers sprint")
        (none : Option (List Segment))).confidence = (19/2) * Real.log 2 / 20
    ∧ (detect_meeting_type MEETING_TYPE_KEYWORDS (str "status update blockers sprint")
        (none : Option (List Segment))).confidence < 1/2 := by
  have hlog : (0:ℝ) < Real.log 2 := Real.log_pos (by norm_num)
  have hlt : Real.log 2 < 0.6931471808 := Real.log_two_lt_d9
  have hS : (0:ℝ) < (19/2) * Real.log 2 := by positivity
  have hmin : min ((19/2) * Real.log 2 / 20) 1 = (19/2) * Real.log 2 / 20 := by
    apply min_eq_left
    nlinarith
  have hbranch :
      detect_meeting_type MEETING_TYPE_KEYWORDS (str "status update blockers sprint")
        (none : Option (List Segment)) =
      { detected_type := MeetingType.status,
        confidence := (19/2) * Real.log 2 / 20,
        evidence := (evidenceFor MEETING_TYPE_KEYWORDS
          (lowerL (str "status update blockers sprint")) MeetingType.status).take 5,
        secondary_types := [(MeetingType.planning, min ((0:ℝ) / 20) 1),
          (MeetingType.design, min ((0:ℝ) / 20) 1), (MeetingType.demo, min ((0:ℝ) / 20) 1),
          (MeetingType.talk, min ((0:ℝ) / 20) 1), (MeetingType.incident, min ((0:ℝ) / 20) 1)],
        engine := str "heuristic" } := by
    have hne0 : (19/2) * Real.log 2 ≠ 0 := ne_of_gt hS
    unfold detect_meeting_type
    rw [sortedScores_scenarioA]
    simp only [hne0, if_false, if_pos hS, sub_zero, div_self hne0, hmin]
    norm_num
  rw [hbranch]
  refine ⟨rfl, rfl, ?_⟩
  show (19/2) * Real.log 2 / 20 < 1/2
  nlinarith

theorem finalScores_empty_text :
    finalScores MEETING_TYPE_KEYWORDS (str "") (none : Option (List Segment))
    = [(MeetingType.status, (0:ℝ)), (MeetingType.planning, 0),
       (MeetingType.design, 0), (MeetingType.demo, 0), (MeetingType.talk, 0),
       (MeetingType.incident, 0), (MeetingType.discovery, 0),
       (MeetingType.oneonone, 0), (MeetingType.brainstorm, 0)] := by
  have h0 : ∀ kws : List (List Char × ℚ), typeScore kws (lowerL (str "")) = 0 :=
    fun kws => typeScore_of_zero_counts kws _ (fun p _ => rfl)
  unfold finalScores
  simp [segmentsTruthy, MEETING_TYPE_KEYWORDS, h0]

theorem sortedScores_empty_text :
    (finalScores MEETING_TYPE_KEYWORDS (str "")
      (none : Option (List Segment))).mergeSort scoreLE
    = [(MeetingType.status, (0:ℝ)), (MeetingType.planning, 0),
       (MeetingType.design, 0), (MeetingType.demo, 0), (MeetingType.talk, 0),
       (MeetingType.incident, 0), (MeetingType.discovery, 0),
       (MeetingType.oneonone, 0), (MeetingType.brainstorm, 0)] := by
  rw [finalScores_empty_text]
  apply List.mergeSort_of_sorted
  apply pairwise_scoreLE_of_zeros
  intro b hb
  simp only [List.mem_cons, List.not_mem_nil, or_false] at hb
  rcases hb with rfl|rfl|rfl|rfl|rfl|rfl|rfl|rfl|rfl <;> rfl

/-- C4 counterexample: in the zero-score fallback (empty input text), the
detected type is talk and yet talk is one of the five secondary_types
entries, so secondary_types does not exclude detected_type there. -/
theorem fallback_secondary_contains_detected :
    (detect_meeting_type MEETING_TYPE_KEYWORDS (str "")
        (none : Option (List Segment))).detected_type = MeetingType.talk
    ∧ (detect_meeting_type MEETING_TYPE_KEYWORDS (str "")
        (none : Option (List Segment))).detected_type ∈
      ((detect_meeting_type MEETING_TYPE_KEYWORDS (str "")
        (none : Option (List Segment))).secondary_types.map Prod.fst) := by
  have hbranch :
      detect_meeting_type MEETING_TYPE_KEYWORDS (str "")
        (none : Option (List Segment)) =
      { detected_type := MeetingType.talk, confidence := 0,
        evidence := [str "No strong indicators found"],
        secondary_types := [(MeetingType.status, (0:ℝ)), (MeetingType.planning, 0),
          (MeetingType.design, 0), (MeetingType.demo, 0), (MeetingType.talk, 0)],
        engine := str "heuristic" } := by
    unfold detect_meeting_type
    rw [sortedScores_empty_text]
    simp
  rw [hbranch]
  exact ⟨rfl, by simp⟩

/-- Witness for the amended C4: at the scenario-A input some final score is
nonzero, and there the detected type is indeed excluded from
secondary_types. -/
theorem detect_secondary_excludes_detected_witness :
    (∃ p ∈ finalScores MEETING_TYPE_KEYWORDS (str "status update blockers sprint")
        (none : Option (List Segment)), p.2 ≠ 0)
    ∧ (detect_meeting_type MEETING_TYPE_KEYWORDS (str "status update blockers sprint")
        (none : Option (List Segment))).detected_type ∉
      ((detect_meeting_type MEETING_TYPE_KEYWORDS (str "status update blockers sprint")
        (none : Option (List Segment))).secondary_types.map Prod.fst) := by
  have hlog : (0:ℝ) < Real.log 2 := Real.log_pos (by norm_num)
  have hex : ∃ p ∈ finalScores MEETING_TYPE_KEYWORDS (str "status update blockers sprint")
      (none : Option (List Segment)), p.2 ≠ 0 := by
    rw [finalScores_scenarioA]
    refine ⟨(MeetingType.status, (19/2) * Real.log 2), by simp, ?_⟩
    show (19/2) * Real.log 2 ≠ 0
    positivity
  exact ⟨hex,
    (detect_secondary_sorted_and_excludes_detected (str "status update blockers sprint")
      (none : Option (List Segment))).2 hex⟩

theorem foldl_append_eq {α β : Type} (g : α → β) (c : α → Prop) [DecidablePred c] :
    ∀ (l : List α) (acc : List β),
      l.foldl (fun acc p => if c p then acc ++ [g p] else acc) acc
        = acc ++ l.filterMap (fun p => if c p then some (g p) else none) := by
  intro l
  induction l with
  | nil => intro acc; simp
  | cons x xs ih =>
    intro acc
    by_cases hx : c x <;> simp [hx, ih]

theorem typeEvidence_eq_filterMap (kws : List (List Char × ℚ)) (tl : List Char) :
    typeEvidence kws tl = kws.filterMap (fun p =>
      if 0 < countOcc (lowerL p.1) tl then
        some (p.1 ++ str " (" ++ natChars (countOcc (lowerL p.1) tl) ++ str "x)")
      else none) := by
  rw [typeEvidence]
  exact (foldl_append_eq
    (fun p : List Char × ℚ =>
      p.1 ++ str " (" ++ natChars (countOcc (lowerL p.1) tl) ++ str "x)")
    (fun p : List Char × ℚ => 0 < countOcc (lowerL p.1) tl) kws []).trans (by simp)

/-- C5: for every (keyword, weight) entry of a default-table row (written
as the split row l1 ++ (kw, w) :: l2), the row score equals the score of
the row without that entry plus exactly weight * ln(1 + n) when the keyword
occurs n > 0 times (as a non-overlapping case-insensitive substring count
of the lowered text), and plus nothing when n = 0; moreover for n > 0 the
evidence string "{keyword} ({n}x)" is recorded for that row. -/
theorem keyword_contribution_exact :
    ∀ (ty : MeetingType) (kws l1 l2 : List (List Char × ℚ)) (kw : List Char) (w : ℚ)
      (text : List Char),
      (ty, kws) ∈ MEETING_TYPE_KEYWORDS → kws = l1 ++ (kw, w) :: l2 →
      (typeScore kws (lowerL text)
        = typeScore (l1 ++ l2) (lowerL text)
          + (if 0 < countOcc (lowerL kw) (lowerL text) then
               (w : ℝ) * Real.log (1 + (countOcc (lowerL kw) (lowerL text) : ℝ))
             else 0))
      ∧ (0 < countOcc (lowerL kw) (lowerL text) →
          (kw ++ str " (" ++ natChars (countOcc (lowerL kw) (lowerL text)) ++ str "x)")
            ∈ typeEvidence kws (lowerL text)) := by
  intro ty kws l1 l2 kw w text _ hsplit
  subst hsplit
  constructor
  · rw [typeScore_eq_sum, typeScore_eq_sum]
    simp only [List.map_append, List.sum_append, List.map_cons, List.sum_cons]
    have : kwContribution (lowerL text) (kw, w)
        = (if 0 < countOcc (lowerL kw) (lowerL text) then
             (w : ℝ) * Real.log (1 + (countOcc (lowerL kw) (lowerL text) : ℝ))
           else 0) := rfl
    rw [this]
    ring
  · intro hpos
    rw [typeEvidence_eq_filterMap]
    apply List.mem_filterMap.mpr
    exact ⟨(kw, w), by simp, by simp [hpos]⟩

/-- Witness for C5 at the concrete entry (status, "status", 5/2) and text
"status": the keyword occurs once and the decomposition holds there. -/
theorem keyword_contribution_exact_witness :
    ((MeetingType.status, statusKeywords) ∈ MEETING_TYPE_KEYWORDS
      ∧ statusKeywords = [] ++ (str "status", (5/2 : ℚ)) :: statusKeywords.tail
      ∧ 0 < countOcc (lowerL (str "status")) (lowerL (str "status")))
    ∧ (typeScore statusKeywords (lowerL (str "status"))
        = typeScore ([] ++ statusKeywords.tail) (lowerL (str "status"))
          + (if 0 < countOcc (lowerL (str "status")) (lowerL (str "status")) then
               ((5/2 : ℚ) : ℝ)
                 * Real.log (1 + (countOcc (lowerL (str "status")) (lowerL (str "status")) : ℝ))
             else 0))
    ∧ ((str "status") ++ str " (" ++ natChars (countOcc (lowerL (str "status")) (lowerL (str "status"))) ++ str "x)")
        ∈ typeEvidence statusKeywords (lowerL (str "status")) := by
  have h1 : (MeetingType.status, statusKeywords) ∈ MEETING_TYPE_KEYWORDS := by
    with_unfolding_all decide
  have h2 : statusKeywords = [] ++ (str "status", (5/2 : ℚ)) :: statusKeywords.tail := rfl
  have h3 : 0 < countOcc (lowerL (str "status")) (lowerL (str "status")) := by decide
  have hmain := keyword_contribution_exact MeetingType.status statusKeywords
    [] statusKeywords.tail (str "status") (5/2 : ℚ) (str "status") h1 h2
  exact ⟨⟨h1, h2, h3⟩, hmain.1, hmain.2 h3⟩

/-! ### Sentence stitching claims -/

/-- C6: for a walked adjacent pair, a pause (next.start minus preceding
end) of at most 0.5 s merges the two segments — stripped texts joined by a
single space, end extended, words appended when both present — and a
larger pause keeps them separate; concretely a gap of exactly 0.500 s
merges and a gap of 0.501 s leaves two segments. -/
theorem stitch_pair_threshold_exact :
    (∀ a b : Segment,
      (stitchSentences [a, b]).1 =
        if b.start - a.«end» ≤ 1/2 then
          [{ a with
              text := stripChars a.text ++ [' '] ++ stripChars b.text,
              «end» := b.«end»,
              words := match a.words, b.words with
                       | some wa, some wb => some (wa ++ wb)
                       | _, _ => a.words }]
        else [a, b])
    ∧ (stitchSentences [⟨0, 0, 2, str "Hello everyone", some []⟩,
         ⟨1, 5/2, 4, str "welcome to the meeting", some []⟩]).1
        = [⟨0, 0, 4, str "Hello everyone welcome to the meeting", some []⟩]
    ∧ (stitchSentences [⟨0, 0, 2, str "Hello everyone", some []⟩,
         ⟨1, 2501/1000, 4, str "welcome to the meeting", some []⟩]).1
        = [⟨0, 0, 2, str "Hello everyone", some []⟩,
           ⟨1, 2501/1000, 4, str "welcome to the meeting", some []⟩] := by
  have hgen : ∀ a b : Segment,
      (stitchSentences [a, b]).1 =
        if b.start - a.«end» ≤ 1/2 then
          [{ a with
              text := stripChars a.text ++ [' '] ++ stripChars b.text,
              «end» := b.«end»,
              words := match a.words, b.words with
                       | some wa, some wb => some (wa ++ wb)
                       | _, _ => a.words }]
        else [a, b] := by
    intro a b
    simp only [stitchSentences, stitchGo]
    split <;> rfl
  refine ⟨hgen, ?_, ?_⟩
  · rw [hgen]
    rw [if_pos (by norm_num)]
    simp only [List.cons.injEq, and_true, Segment.mk.injEq]
    exact ⟨trivial, trivial, trivial, by decide, by decide⟩
  · rw [hgen]
    rw [if_neg (by norm_num)]

/-- First segment of every run (a run breaks where the pause to the
previous original segment exceeds 0.5 s); prev is the preceding original
segment, as in the source loop. -/
def runHeadsGo (prev : Segment) : List Segment → List Segment
  | [] => []
  | c :: rest =>
    if c.start - prev.«end» ≤ 1/2 then runHeadsGo c rest
    else c :: runHeadsGo c rest

/-- The run-head segments of a segment list. -/
def runHeads : List Segment → List Segment
  | [] => []
  | s :: rest => s :: runHeadsGo s rest

theorem stitchGo_ids_starts :
    ∀ (rest : List Segment) (current prev : Segment),
      ((stitchGo current prev rest).1).map (fun s => (s.id, s.start))
        = (current.id, current.start)
            :: (runHeadsGo prev rest).map (fun s => (s.id, s.start)) := by
  intro rest
  induction rest with
  | nil => intro current prev; simp [stitchGo, runHeadsGo]
  | cons c cs ih =>
    intro current prev
    by_cases h : c.start - prev.«end» ≤ 1/2
    · simp only [stitchGo, runHeadsGo, if_pos h]
      exact ih _ c
    · simp only [stitchGo, runHeadsGo, if_neg h, List.map_cons]
      rw [ih c c]

/-- C10: each surviving stitched segment keeps the id and the start time of
the first constituent segment of its run; merging never alters the open
segment's start (or id). -/
theorem stitch_preserves_run_head_ids_starts :
    ∀ segs : List Segment,
      ((stitchSentences segs).1).map (fun s => (s.id, s.start))
        = (runHeads segs).map (fun s => (s.id, s.start)) := by
  intro segs
  cases segs with
  | nil => rfl
  | cons s rest =>
    simp only [stitchSentences, runHeads, List.map_cons]
    exact stitchGo_ids_starts rest s s

/-! ### Idempotence of stutter reduction (C7) -/

/-- A well-formed word chunk content: nonempty, all word characters. -/
def wordOK (w : List Char) : Prop := w ≠ [] ∧ ∀ c ∈ w, isWordChar c = true

/-- A well-formed separator chunk content: nonempty, no word characters. -/
def sepOK (s : List Char) : Prop := s ≠ [] ∧ ∀ c ∈ s, isWordChar c = false

/-- Well-formed chunk lists: the shape tokenize produces (nonempty chunks
of a single class, alternating between word and separator chunks). -/
inductive WFChunks : List Chunk → Prop where
  | nil : WFChunks []
  | word {w : List Char} {rest : List Chunk} (hw : wordOK w) (hrest : WFChunks rest)
      (hsep : ∀ x ∈ rest.head?, ∃ s, x = Chunk.sep s) : WFChunks (Chunk.word w :: rest)
  | sep {s : List Char} {rest : List Chunk} (hs : sepOK s) (hrest : WFChunks rest)
      (hword : ∀ x ∈ rest.head?, ∃ w, x = Chunk.word w) : WFChunks (Chunk.sep s :: rest)

theorem tokenize_WF (l : List Char) : WFChunks (tokenize l) := by
  induction l with
  | nil => exact .nil
  | cons c rest ih =>
    show WFChunks (tokStep c (tokenize rest))
    cases hshape : tokenize rest with
    | nil =>
      cases hc : isWordChar c
      · simp only [tokStep, hc, Bool.false_eq_true, if_false]
        exact .sep ⟨by simp, by intro x hx; simp at hx; subst hx; exact hc⟩ .nil (by simp)
      · simp only [tokStep, hc, if_true]
        exact .word ⟨by simp, by intro x hx; simp at hx; subst hx; exact hc⟩ .nil (by simp)
    | cons chunk cs =>
      rw [hshape] at ih
      cases chunk with
      | word w =>
        cases ih with
        | word hw hrest hsep =>
          cases hc : isWordChar c
          · simp only [tokStep, hc, Bool.false_eq_true, if_false]
            exact .sep ⟨by simp, by intro x hx; simp at hx; subst hx; exact hc⟩
              (.word hw hrest hsep) (by simp)
          · simp only [tokStep, hc, if_true]
            refine .word ⟨by simp, ?_⟩ hrest hsep
            intro x hx
            rcases List.mem_cons.mp hx with rfl | hx'
            · exact hc
            · exact hw.2 x hx'
      | sep s =>
        cases ih with
        | sep hs hrest hword =>
          cases hc : isWordChar c
          · simp only [tokStep, hc, Bool.false_eq_true, if_false]
            refine .sep ⟨by simp, ?_⟩ hrest hword
            intro x hx
            rcases List.mem_cons.mp hx with rfl | hx'
            · exact hc
            · exact hs.2 x hx'
          · simp only [tokStep, hc, if_true]
            exact .word ⟨by simp, by intro x hx; simp at hx; subst hx; exact hc⟩
              (.sep hs hrest hword) (by simp)

theorem tokenize_prepend_word :
    ∀ (w : List Char), w ≠ [] → (∀ c ∈ w, isWordChar c = true) →
    ∀ (l : List Char), (tokenize l = [] ∨ ∃ s cs, tokenize l = Chunk.sep s :: cs) →
    tokenize (w ++ l) = Chunk.word w :: tokenize l := by
  intro w
  induction w with
  | nil => intro h; exact absurd rfl h
  | cons c w' ih =>
    intro _ hall l hshape
    have hc : isWordChar c = true := hall c (by simp)
    by_cases hne : w' = []
    · subst hne
      show tokStep c (tokenize l) = Chunk.word [c] :: tokenize l
      rcases hshape with h0 | ⟨s, cs, hsc⟩
      · rw [h0]; simp [tokStep, hc]
      · rw [hsc]; simp [tokStep, hc]
    · have ih' := ih hne (fun x hx => hall x (List.mem_cons_of_mem _ hx)) l hshape
      show tokStep c (tokenize (w' ++ l)) = Chunk.word (c :: w') :: tokenize l
      rw [ih']
      simp [tokStep, hc]

theorem tokenize_prepend_sep :
    ∀ (s : List Char), s ≠ [] → (∀ c ∈ s, isWordChar c = false) →
    ∀ (l : List Char), (tokenize l = [] ∨ ∃ w cs, tokenize l = Chunk.word w :: cs) →
    tokenize (s ++ l) = Chunk.sep s :: tokenize l := by
  intro s
  induction s with
  | nil => intro h; exact absurd rfl h
  | cons c s' ih =>
    intro _ hall l hshape
    have hc : isWordChar c = false := hall c (by simp)
    by_cases hne : s' = []
    · subst hne
      show tokStep c (tokenize l) = Chunk.sep [c] :: tokenize l
      rcases hshape with h0 | ⟨w, cs, hwc⟩
      · rw [h0]; simp [tokStep, hc]
      · rw [hwc]; simp [tokStep, hc]
    · have ih' := ih hne (fun x hx => hall x (List.mem_cons_of_mem _ hx)) l hshape
      show tokStep c (tokenize (s' ++ l)) = Chunk.sep (c :: s') :: tokenize l
      rw [ih']
      simp [tokStep, hc]

theorem render_cons (ch : Chunk) (rest : List Chunk) :
    render (ch :: rest)
      = (match ch with | Chunk.word w => w | Chunk.sep s => s) ++ render rest := rfl

theorem tokenize_render : ∀ {cs : List Chunk}, WFChunks cs → tokenize (render cs) = cs := by
  intro cs hwf
  induction hwf with
  | nil => rfl
  | @word w rest hw hrest hsep ih =>
    rw [render_cons]
    rw [tokenize_prepend_word w hw.1 hw.2 (render rest) ?_, ih]
    rw [ih]
    cases rest with
    | nil => exact Or.inl rfl
    | cons x rs =>
      obtain ⟨s, rfl⟩ := hsep x (by simp)
      exact Or.inr ⟨s, rs, rfl⟩
  | @sep s rest hs hrest hword ih =>
    rw [render_cons]
    rw [tokenize_prepend_sep s hs.1 hs.2 (render rest) ?_, ih]
    rw [ih]
    cases rest with
    | nil => exact Or.inl rfl
    | cons x rs =>
      obtain ⟨w, rfl⟩ := hword x (by simp)
      exact Or.inr ⟨w, rs, rfl⟩

theorem collapseAux_head : ∀ (w : List Char) (l : List Chunk),
    ∃ t, collapseAux w l = Chunk.word w :: t := by
  intro w l
  induction w, l using collapseAux.induct with
  | case1 w s w2 rest hcond ih =>
    obtain ⟨t, ht⟩ := ih
    exact ⟨t, by simp only [collapseAux, if_pos hcond]; exact ht⟩
  | case2 w s w2 rest hcond ih =>
    exact ⟨Chunk.sep s :: collapseAux w2 rest, by simp only [collapseAux, if_neg hcond]⟩
  | case3 w rest h =>
    exact ⟨rest, by simp only [collapseAux]⟩

/-- A chunk list with no remaining stutter: no word chunk followed by a
pure-whitespace separator and a case-insensitively equal word chunk. -/
def Reduced : List Chunk → Prop
  | Chunk.word w :: Chunk.sep s :: Chunk.word w2 :: rest =>
      ¬(s.all Char.isWhitespace && lowerEq w2 w) = true
        ∧ Reduced (Chunk.sep s :: Chunk.word w2 :: rest)
  | _ :: rest => Reduced rest
  | [] => True

theorem WFChunks_tail {x : Chunk} {cs : List Chunk} (h : WFChunks (x :: cs)) :
    WFChunks cs := by
  cases h with
  | word hw hrest hsep => exact hrest
  | sep hs hrest hword => exact hrest

theorem collapseAux_main :
    ∀ (w : List Char) (l : List Chunk),
      WFChunks (Chunk.word w :: l) →
      (WFChunks (collapseAux w l)
        ∧ Reduced (collapseAux w l)
        ∧ (Reduced (Chunk.word w :: l) → collapseAux w l = Chunk.word w :: l)) := by
  intro w l
  induction w, l using collapseAux.induct with
  | case1 w s w2 rest hcond ih =>
    intro hwf
    cases hwf with
    | word hw hrest hsep =>
      cases hrest with
      | sep hs hrest2 hword =>
        cases hrest2 with
        | word hw2 hrest3 hsep2 =>
          have hwf' : WFChunks (Chunk.word w :: rest) := .word hw hrest3 hsep2
          obtain ⟨iWF, iRed, _⟩ := ih hwf'
          refine ⟨?_, ?_, ?_⟩
          · simpa only [collapseAux, if_pos hcond] using iWF
          · simpa only [collapseAux, if_pos hcond] using iRed
          · intro hred
            obtain ⟨h1, _⟩ := hred
            exact absurd hcond h1
  | case2 w s w2 rest hcond ih =>
    intro hwf
    cases hwf with
    | word hw hrest hsep =>
      cases hrest with
      | sep hs hrest2 hword =>
        obtain ⟨iWF, iRed, iId⟩ := ih hrest2
        obtain ⟨t, ht⟩ := collapseAux_head w2 rest
        refine ⟨?_, ?_, ?_⟩
        · simp only [collapseAux, if_neg hcond]
          refine .word hw (.sep hs iWF ?_) (by simp)
          intro x hx
          rw [ht] at hx
          simp at hx
          subst hx
          exact ⟨w2, rfl⟩
        · simp only [collapseAux, if_neg hcond]
          rw [ht]
          show ¬(s.all Char.isWhitespace && lowerEq w2 w) = true
              ∧ Reduced (Chunk.sep s :: Chunk.word w2 :: t)
          refine ⟨hcond, ?_⟩
          show Reduced (Chunk.word w2 :: t)
          rw [← ht]
          exact iRed
        · intro hred
          obtain ⟨_, h2⟩ := hred
          have h3 : Reduced (Chunk.word w2 :: rest) := h2
          simp only [collapseAux, if_neg hcond]
          rw [iId h3]
  | case3 w rest h =>
    intro hwf
    cases hrest : rest with
    | nil =>
      subst hrest
      refine ⟨by simpa only [collapseAux] using hwf, ?_, by intro _; simp only [collapseAux]⟩
      simp only [collapseAux]
      show Reduced ([] : List Chunk)
      trivial
    | cons x rs =>
      subst hrest
      cases hwf with
      | word hw hrest2 hsep =>
        obtain ⟨s, hx⟩ := hsep x (by simp)
        subst hx
        cases hrs : rs with
        | nil =>
          subst hrs
          refine ⟨?_, ?_, by intro _; simp only [collapseAux]⟩
          · simpa only [collapseAux] using (.word hw hrest2 hsep : WFChunks _)
          · simp only [collapseAux]
            show Reduced (Chunk.sep s :: ([] : List Chunk))
            trivial
        | cons y rs2 =>
          subst hrs
          cases hy : y with
          | word w2 =>
            subst hy
            exact absurd rfl (by exact fun hh => h s w2 rs2 hh)
          | sep s2 =>
            subst hy
            cases hrest2 with
            | sep hs hrest3 hword =>
              obtain ⟨w2, hx2⟩ := hword (Chunk.sep s2) (by simp)
              cases hx2

theorem collapseChunks_main :
    ∀ (cs : List Chunk), WFChunks cs →
      (WFChunks (collapseChunks cs)
        ∧ Reduced (collapseChunks cs)
        ∧ (Reduced cs → collapseChunks cs = cs)) := by
  intro cs hwf
  induction hwf with
  | nil => exact ⟨.nil, trivial, fun _ => rfl⟩
  | @word w rest hw hrest hsep ih =>
    have := collapseAux_main w rest (.word hw hrest hsep)
    exact ⟨this.1, this.2.1, this.2.2⟩
  | @sep s rest hs hrest hword ih =>
    obtain ⟨iWF, iRed, iId⟩ := ih
    refine ⟨?_, ?_, ?_⟩
    · show WFChunks (Chunk.sep s :: collapseChunks rest)
      refine .sep hs iWF ?_
      intro x hx
      cases rest with
      | nil => simp [collapseChunks] at hx
      | cons y rs =>
        obtain ⟨w2, hy⟩ := hword y (by simp)
        subst hy
        obtain ⟨t, ht⟩ := collapseAux_head w2 rs
        have : collapseChunks (Chunk.word w2 :: rs) = Chunk.word w2 :: t := by
          simpa only [collapseChunks] using ht
        rw [this] at hx
        simp at hx
        subst hx
        exact ⟨w2, rfl⟩
    · show Reduced (Chunk.sep s :: collapseChunks rest)
      show Reduced (collapseChunks rest)
      exact iRed
    · intro hred
      have h2 : Reduced rest := hred
      show Chunk.sep s :: collapseChunks rest = Chunk.sep s :: rest
      rw [iId h2]

/-- C7: stutter reduction is idempotent — applying the transform twice
yields the same text as applying it once. -/
theorem reduce_stutters_idempotent :
    ∀ text : List Char, reduceStutters (reduceStutters text) = reduceStutters text := by
  intro text
  have hwf := tokenize_WF text
  obtain ⟨hWF, hRed, _⟩ := collapseChunks_main _ hwf
  show render (collapseChunks (tokenize (render (collapseChunks (tokenize text))))) = _
  rw [tokenize_render hWF]
  obtain ⟨_, _, hid⟩ := collapseChunks_main _ hWF
  rw [hid hRed]
  rfl

/-! ### Scenario C normalization (C8) -/

/-- The scenario-C input transcription: one segment with the text
"I I I think we should meet march three at five pm". -/
def scenarioC : Transcription :=
  { text := str "I I I think we should meet march three at five pm",
    segments := [{ id := 0, start := 0, «end» := 5,
                   text := str "I I I think we should meet march three at five pm",
                   words := some [] }],
    language := some (str "en") }

set_option maxRecDepth 100000 in
/-- C8 counterexample: normalizing the scenario-C transcription with
default flags logs exactly 2 changes (one stutter reduction, one
number/date normalization), not at least 3 as the claim states. -/
theorem scenarioC_not_three_changes :
    ¬ (3 ≤ (normalize_transcript scenarioC false true).changes.length)
    ∧ (normalize_transcript scenarioC false true).changes.length = 2 := by
  constructor <;> decide

set_option maxRecDepth 100000 in
/-- C8 (amended): normalizing the scenario-C transcription with default
flags yields output text containing "I think", "March 3" and "5 pm" (as
substrings, witnessed by a positive occurrence count), and logs exactly 2
changes (whose reasons are stutter reduction and number/date
normalization). -/
theorem scenarioC_output_contains_and_two_changes :
    (0 < countOcc (str "I think")
        (normalize_transcript scenarioC false true).transcription.text)
    ∧ (0 < countOcc (str "March 3")
        (normalize_transcript scenarioC false true).transcription.text)
    ∧ (0 < countOcc (str "5 pm")
        (normalize_transcript scenarioC false true).transcription.text)
    ∧ (normalize_transcript scenarioC false true).changes.length = 2
    ∧ ((normalize_transcript scenarioC false true).changes.map
        (fun c => c.reason))
      = [str "Stutter reduction", str "Number/date normalization"] := by
  refine ⟨?_, ?_, ?_, ?_, ?_⟩ <;> decide

/-! ### Repair reconciliation (C9) -/

/-- Modelled from the spec: the word quota of a segment in repair
redistribution — max(1, number of whitespace-separated words of the
original segment text). -/
def kOf (seg : Segment) : Nat := max 1 (splitWs seg.text).length

/-- Modelled from the spec: the redistributed segment texts — every
segment except the last takes its quota of words from the head of the
remaining repaired-word sequence, the last segment absorbs the rest. -/
def specSegTexts (ws : List (List Char)) : List Segment → List (List Char)
  | [] => []
  | [_] => [List.intercalate (str " ") ws]
  | seg :: rest =>
      List.intercalate (str " ") (ws.take (kOf seg))
        :: specSegTexts (ws.drop (kOf seg)) rest

/-- The repair change record logged for a segment whose reconstructed text
differs. -/
def repairChangeFor (seg : Segment) (nt : List Char) : TranscriptChange :=
  { segment_id := seg.id, timestamp := formatTimestamp seg.start seg.«end»,
    before := seg.text, after := nt,
    reason := str "LLM-based ASR error correction",
    change_type := str "repair" }

theorem distributeWords_texts :
    ∀ (segs : List Segment) (ws : List (List Char)),
      ((distributeWords ws segs).1).map Segment.text = specSegTexts ws segs := by
  intro segs
  induction segs with
  | nil => intro ws; rfl
  | cons seg rest ih =>
    intro ws
    cases rest with
    | nil =>
      show ((distributeWords ws [seg]).1).map Segment.text = [List.intercalate (str " ") ws]
      by_cases h : List.intercalate (str " ") ws ≠ seg.text
      · simp [distributeWords, h]
      · simp [distributeWords, h]
        exact (not_ne_iff.mp h).symm
    | cons s2 rest2 =>
      show ((distributeWords ws (seg :: s2 :: rest2)).1).map Segment.text
        = List.intercalate (str " ") (ws.take (kOf seg))
            :: specSegTexts (ws.drop (kOf seg)) (s2 :: rest2)
      by_cases h : List.intercalate (str " ")
          (ws.take (max 1 (splitWs seg.text).length)) ≠ seg.text
      · simp [distributeWords, kOf, h, ih]
      · simp [distributeWords, kOf, h, ih]
        exact (not_ne_iff.mp h).symm

theorem distributeWords_frame :
    ∀ (segs : List Segment) (ws : List (List Char)),
      ((distributeWords ws segs).1).map (fun s => (s.id, s.start, s.«end», s.words))
        = segs.map (fun s => (s.id, s.start, s.«end», s.words)) := by
  intro segs
  induction segs with
  | nil => intro ws; rfl
  | cons seg rest ih =>
    intro ws
    cases rest with
    | nil =>
      by_cases h : List.intercalate (str " ") ws ≠ seg.text
      · simp [distributeWords, h]
      · simp [distributeWords, h]
    | cons s2 rest2 =>
      by_cases h : List.intercalate (str " ")
          (ws.take (max 1 (splitWs seg.text).length)) ≠ seg.text
      · simp [distributeWords, h, ih]
      · simp [distributeWords, h, ih]

theorem distributeWords_changes :
    ∀ (segs : List Segment) (ws : List (List Char)),
      (distributeWords ws segs).2
        = (segs.zip (distributeWords ws segs).1).filterMap
            (fun pq => if pq.2.text ≠ pq.1.text then some (repairChangeFor pq.1 pq.2.text)
                       else none) := by
  intro segs
  induction segs with
  | nil => intro ws; rfl
  | cons seg rest ih =>
    intro ws
    cases rest with
    | nil =>
      by_cases h : List.intercalate (str " ") ws ≠ seg.text
      · simp [distributeWords, h, repairChangeFor]
      · simp [distributeWords, h]
    | cons s2 rest2 =>
      by_cases h : List.intercalate (str " ")
          (ws.take (max 1 (splitWs seg.text).length)) ≠ seg.text
      · simp [distributeWords, h, repairChangeFor, ih]
      · simp [distributeWords, h, repairChangeFor, ih]

/-- The one-segment transcription used for the C9 counterexample. -/
def repairInputT : Transcription :=
  { text := str "hello",
    segments := [{ id := 0, start := 0, «end» := 1, text := str "hello", words := none }],
    language := none }

/-- C9 counterexample: with an empty repaired text, which does differ from
the original full text "hello", the code records no change and leaves the
segment text unchanged (the empty string is falsy, so the whole repair
block is skipped), while the claimed redistribution would reconstruct the
empty text for the last segment — different from "hello" — and log a
change for it. -/
theorem repair_empty_repaired_text_not_redistributed :
    (str "" ≠ List.intercalate (str " ") (repairInputT.segments.map Segment.text))
    ∧ (repairReconcile repairInputT (str "") []).changes = []
    ∧ ((repairReconcile repairInputT (str "") []).transcription.segments.map Segment.text
        = [str "hello"])
    ∧ specSegTexts (splitWs (str "")) repairInputT.segments = [str ""]
    ∧ str "" ≠ str "hello" := by
  refine ⟨?_, ?_, ?_, ?_, ?_⟩ <;> decide

/-- C9 (amended): if the repaired text equals the original full text,
nothing is recorded and the transcription is returned unchanged; if it
differs AND is nonempty AND contains at least one whitespace-separated
word, the segment texts are redistributed exactly as the claim describes
(quota max(1, original word count) per non-final segment, remainder to the
last), all other segment fields are unchanged, and a change with
change_type "repair" is logged exactly for the segments whose
reconstructed text differs, followed by the no-op-filtered structured
changes; the top-level text becomes the repaired text. -/
theorem repair_reconcile_spec :
    ∀ (t : Transcription) (r : List Char) (rcs : List RepairChangeInfo),
      (r = List.intercalate (str " ") (t.segments.map Segment.text) →
        (repairReconcile t r rcs).transcription = t
        ∧ (repairReconcile t r rcs).changes = [])
      ∧ (r ≠ List.intercalate (str " ") (t.segments.map Segment.text) →
         r ≠ [] → splitWs r ≠ [] →
          ((repairReconcile t r rcs).transcription.segments.map Segment.text
              = specSegTexts (splitWs r) t.segments
           ∧ (repairReconcile t r rcs).transcription.segments.map
                (fun s => (s.id, s.start, s.«end», s.words))
              = t.segments.map (fun s => (s.id, s.start, s.«end», s.words))
           ∧ (repairReconcile t r rcs).changes
              = ((t.segments.zip
                    (repairReconcile t r rcs).transcription.segments).filterMap
                  (fun pq => if pq.2.text ≠ pq.1.text
                             then some (repairChangeFor pq.1 pq.2.text) else none))
                ++ ((rcs.filter (fun c => c.before ≠ c.after)).map
                    (fun c => { segment_id := c.segment_id, timestamp := c.timestamp,
                                before := c.before, after := c.after, reason := c.reason,
                                change_type := str "repair" }))
           ∧ (repairReconcile t r rcs).transcription.text = r)) := by
  intro t r rcs
  constructor
  · intro hr
    have hcond : ¬(r ≠ [] ∧ r ≠ List.intercalate (str " ") (t.segments.map Segment.text)) :=
      fun h => h.2 hr
    unfold repairReconcile
    rw [if_neg hcond]
    exact ⟨rfl, rfl⟩
  · intro hfull hne hsplit
    have hcond : r ≠ [] ∧ r ≠ List.intercalate (str " ") (t.segments.map Segment.text) :=
      ⟨hne, hfull⟩
    have hlen : 0 < (splitWs r).length := List.length_pos.mpr hsplit
    unfold repairReconcile
    rw [if_pos hcond]
    simp only [if_pos hlen]
    refine ⟨?_, ?_, ?_, trivial⟩
    · exact distributeWords_texts t.segments (splitWs r)
    · exact distributeWords_frame t.segments (splitWs r)
    · rw [distributeWords_changes t.segments (splitWs r)]

/-- The two-segment transcription used for the C9 witness. -/
def repairInputT2 : Transcription :=
  { text := str "hello world foo",
    segments := [{ id := 0, start := 0, «end» := 1, text := str "hello world", words := none },
                 { id := 1, start := 2, «end» := 3, text := str "foo", words := none }],
    language := none }

/-- Witness for the amended C9 at a concrete two-segment transcription and
repaired text "helo world fu": all three hypotheses hold and the
redistribution conclusion follows. -/
theorem repair_reconcile_spec_witness :
    (str "helo world fu"
        ≠ List.intercalate (str " ") (repairInputT2.segments.map Segment.text)
      ∧ str "helo world fu" ≠ ([] : List Char)
      ∧ splitWs (str "helo world fu") ≠ [])
    ∧ ((repairReconcile repairInputT2 (str "helo world fu") []).transcription.segments.map
          Segment.text
        = specSegTexts (splitWs (str "helo world fu")) repairInputT2.segments
       ∧ (repairReconcile repairInputT2 (str "helo world fu") []).transcription.segments.map
            (fun s => (s.id, s.start, s.«end», s.words))
          = repairInputT2.segments.map (fun s => (s.id, s.start, s.«end», s.words))
       ∧ (repairReconcile repairInputT2 (str "helo world fu") []).changes
          = ((repairInputT2.segments.zip
                (repairReconcile repairInputT2 (str "helo world fu") []).transcription.segments).filterMap
              (fun pq => if pq.2.text ≠ pq.1.text
                         then some (repairChangeFor pq.1 pq.2.text) else none))
            ++ ((([] : List RepairChangeInfo).filter (fun c => c.before ≠ c.after)).map
                (fun c => { segment_id := c.segment_id, timestamp := c.timestamp,
                            before := c.before, after := c.after, reason := c.reason,
                            change_type := str "repair" }))
       ∧ (repairReconcile repairInputT2 (str "helo world fu") []).transcription.text
          = str "helo world fu") :=
  ⟨⟨by decide, by decide, by decide⟩,
   (repair_reconcile_spec repairInputT2 (str "helo world fu") []).2
     (by decide) (by decide) (by decide)⟩
